import Mathlib

/-!
# Verification of the vmax2bella voxel decoder core

Shallow embedding of the Morton codecs, the hybrid voxel-stream decoder,
the snapshot-resolution loop and the plist entry point of
`src/vmax2bella.cpp` and `src/debug.cpp`, together with proofs and
refutations of the specified properties.

Conventions of the embedding:
 - machine integers are modelled as `Nat`; where C++ performs a narrowing
   cast (`static_cast<uint8_t>` on `std::vector<char>` elements) the model
   takes `% 256`, and where C++ unsigned arithmetic wraps
   (`size_t` in `dsData.size() - 1`) the model takes `% 2^64`;
 - `std::map` is modelled as an insertion-ordered association list with
   replace-on-existing-key update (`setPos`, `setChunkPos`); the claims
   proved below only inspect maps through lookup, membership and
   emptiness, which agree with the sorted iteration order of `std::map`;
 - an out-of-bounds vector read (undefined behaviour) is modelled by
   returning `none`.
-/

namespace Vmax2Bella

/-- `decodeMorton` (vmax2bella.cpp:374-402): decode an 8-bit Morton code to
local coordinates, x from code bits 0, 3, 6, y from bits 1, 4, 7 and z from
bits 2, 5.  The C++ builds each axis with `|=` starting from 0; the chain of
`let` bindings mirrors those successive or-assignments. -/
def decodeMorton (code : Nat) : Nat × Nat × Nat :=
  let x0 : Nat := 0
  let y0 : Nat := 0
  let z0 : Nat := 0
  let x1 := if code &&& 0x01 ≠ 0 then x0 ||| 1 else x0
  let x2 := if code &&& 0x08 ≠ 0 then x1 ||| 2 else x1
  let x3 := if code &&& 0x40 ≠ 0 then x2 ||| 4 else x2
  let y1 := if code &&& 0x02 ≠ 0 then y0 ||| 1 else y0
  let y2 := if code &&& 0x10 ≠ 0 then y1 ||| 2 else y1
  let y3 := if code &&& 0x80 ≠ 0 then y2 ||| 4 else y2
  let z1 := if code &&& 0x04 ≠ 0 then z0 ||| 1 else z0
  let z2 := if code &&& 0x20 ≠ 0 then z1 ||| 2 else z1
  (x3, y3, z2)

/-- `decodeMortonChunkID` (vmax2bella.cpp:2089-2109): decode a 24-bit Morton
chunk ID; the loop over `i = 0..23` sends bit `i` to bit `i / 3` of x when
`i % 3 = 0`, of y when `i % 3 = 1`, and of z when `i % 3 = 2`. -/
def decodeMortonChunkID (mortonID : Nat) : Nat × Nat × Nat :=
  (List.range 24).foldl
    (fun acc i =>
      let bit := (mortonID >>> i) &&& 1
      if i % 3 = 0 then (acc.1 ||| (bit <<< (i / 3)), acc.2.1, acc.2.2)
      else if i % 3 = 1 then (acc.1, acc.2.1 ||| (bit <<< (i / 3)), acc.2.2)
      else (acc.1, acc.2.1, acc.2.2 ||| (bit <<< (i / 3))))
    (0, 0, 0)

/-- Modelled from the spec: the source declares no Morton encoder
(`decodeMortonChunkID` is its only 24-bit codec function), so the encoder is
taken from spec section 4.1: interleave the bits of three 8-bit integers, bit
order x then y then z repeated per bit-plane, so bit `3k` of the code is bit
`k` of x, bit `3k+1` is bit `k` of y and bit `3k+2` is bit `k` of z. -/
def encodeMortonChunkID (x y z : Nat) : Nat :=
  (List.range 8).foldl
    (fun acc k =>
      acc ||| (((x >>> k) &&& 1) <<< (3 * k))
          ||| (((y >>> k) &&& 1) <<< (3 * k + 1))
          ||| (((z >>> k) &&& 1) <<< (3 * k + 2)))
    0


/-! ## Bit-level lemmas for the Morton codecs -/

/-- One extracted bit, reshifted: its `testBit` is concentrated at `j`. -/
theorem testBit_extract (m i j k : Nat) :
    (((m >>> i) &&& 1) <<< j).testBit k = (decide (k = j) && m.testBit i) := by
  by_cases h : k = j
  · subst h
    simp [Nat.testBit_shiftLeft, Nat.testBit_and, Nat.testBit_shiftRight,
      Nat.testBit_one_zero]
  · simp only [Nat.testBit_shiftLeft, Nat.testBit_and, Nat.testBit_shiftRight]
    by_cases hle : j ≤ k
    · have hkj : k - j ≠ 0 := by omega
      have h1 : Nat.testBit 1 (k - j) = false := by
        rcases Nat.exists_eq_succ_of_ne_zero hkj with ⟨t, ht⟩
        rw [ht]
        simp [Nat.testBit_succ]
      simp [h1, h]
    · simp [hle, h]

theorem mod_two_testBit (m t : Nat) : (m % 2).testBit t = (decide (t = 0) && m.testBit 0) := by
  cases t with
  | zero =>
      have h2 : m % 2 % 2 = m % 2 := by omega
      simp [Nat.testBit_zero, h2]
  | succ n =>
      have h2 : m % 2 / 2 = 0 := by omega
      simp [Nat.testBit_succ, h2]

theorem shiftRight_mod_two_testBit (m i t : Nat) :
    ((m >>> i) % 2).testBit t = (decide (t = 0) && m.testBit i) := by
  rw [mod_two_testBit]
  cases t with
  | zero => simp [Nat.testBit_shiftRight]
  | succ n => simp

/-- The loop of `decodeMortonChunkID` fully unrolled: the 24 iterations of
the concrete `List.range 24` fold reduce definitionally to one or-chain per
axis. -/
theorem decode_unfold (m : Nat) :
    decodeMortonChunkID m =
      (0 ||| ((m >>> 0) &&& 1) <<< 0 ||| ((m >>> 3) &&& 1) <<< 1
         ||| ((m >>> 6) &&& 1) <<< 2 ||| ((m >>> 9) &&& 1) <<< 3
         ||| ((m >>> 12) &&& 1) <<< 4 ||| ((m >>> 15) &&& 1) <<< 5
         ||| ((m >>> 18) &&& 1) <<< 6 ||| ((m >>> 21) &&& 1) <<< 7,
       0 ||| ((m >>> 1) &&& 1) <<< 0 ||| ((m >>> 4) &&& 1) <<< 1
         ||| ((m >>> 7) &&& 1) <<< 2 ||| ((m >>> 10) &&& 1) <<< 3
         ||| ((m >>> 13) &&& 1) <<< 4 ||| ((m >>> 16) &&& 1) <<< 5
         ||| ((m >>> 19) &&& 1) <<< 6 ||| ((m >>> 22) &&& 1) <<< 7,
       0 ||| ((m >>> 2) &&& 1) <<< 0 ||| ((m >>> 5) &&& 1) <<< 1
         ||| ((m >>> 8) &&& 1) <<< 2 ||| ((m >>> 11) &&& 1) <<< 3
         ||| ((m >>> 14) &&& 1) <<< 4 ||| ((m >>> 17) &&& 1) <<< 5
         ||| ((m >>> 20) &&& 1) <<< 6 ||| ((m >>> 23) &&& 1) <<< 7) := rfl

/-- The loop of `encodeMortonChunkID` fully unrolled. -/
theorem encode_unfold (x y z : Nat) :
    encodeMortonChunkID x y z =
      0 ||| ((x >>> 0) &&& 1) <<< 0 ||| ((y >>> 0) &&& 1) <<< 1 ||| ((z >>> 0) &&& 1) <<< 2
        ||| ((x >>> 1) &&& 1) <<< 3 ||| ((y >>> 1) &&& 1) <<< 4 ||| ((z >>> 1) &&& 1) <<< 5
        ||| ((x >>> 2) &&& 1) <<< 6 ||| ((y >>> 2) &&& 1) <<< 7 ||| ((z >>> 2) &&& 1) <<< 8
        ||| ((x >>> 3) &&& 1) <<< 9 ||| ((y >>> 3) &&& 1) <<< 10 ||| ((z >>> 3) &&& 1) <<< 11
        ||| ((x >>> 4) &&& 1) <<< 12 ||| ((y >>> 4) &&& 1) <<< 13 ||| ((z >>> 4) &&& 1) <<< 14
        ||| ((x >>> 5) &&& 1) <<< 15 ||| ((y >>> 5) &&& 1) <<< 16 ||| ((z >>> 5) &&& 1) <<< 17
        ||| ((x >>> 6) &&& 1) <<< 18 ||| ((y >>> 6) &&& 1) <<< 19 ||| ((z >>> 6) &&& 1) <<< 20
        ||| ((x >>> 7) &&& 1) <<< 21 ||| ((y >>> 7) &&& 1) <<< 22 ||| ((z >>> 7) &&& 1) <<< 23
    := rfl

theorem extract_shift_lt (m i j n : Nat) (h : j < n) :
    ((m >>> i) &&& 1) <<< j < 2 ^ n := by
  have h1 : (m >>> i) &&& 1 ≤ 1 := Nat.and_le_right
  calc ((m >>> i) &&& 1) <<< j = ((m >>> i) &&& 1) * 2 ^ j := Nat.shiftLeft_eq _ _
    _ ≤ 1 * 2 ^ j := Nat.mul_le_mul_right _ h1
    _ = 2 ^ j := one_mul _
    _ < 2 ^ n := Nat.pow_lt_pow_right (by norm_num) h

theorem encode_lt (x y z : Nat) : encodeMortonChunkID x y z < 2 ^ 24 := by
  rw [encode_unfold]
  repeat
    first
      | exact extract_shift_lt _ _ _ _ (by norm_num)
      | apply Nat.or_lt_two_pow
      | norm_num

theorem decode_fst_lt (m : Nat) : (decodeMortonChunkID m).1 < 2 ^ 8 := by
  rw [decode_unfold]
  repeat
    first
      | exact extract_shift_lt _ _ _ _ (by norm_num)
      | apply Nat.or_lt_two_pow
      | norm_num

theorem decode_snd_lt (m : Nat) : (decodeMortonChunkID m).2.1 < 2 ^ 8 := by
  rw [decode_unfold]
  repeat
    first
      | exact extract_shift_lt _ _ _ _ (by norm_num)
      | apply Nat.or_lt_two_pow
      | norm_num

theorem decode_thd_lt (m : Nat) : (decodeMortonChunkID m).2.2 < 2 ^ 8 := by
  rw [decode_unfold]
  repeat
    first
      | exact extract_shift_lt _ _ _ _ (by norm_num)
      | apply Nat.or_lt_two_pow
      | norm_num

theorem decode_fst_testBit (m k : Nat) (hk : k < 8) :
    (decodeMortonChunkID m).1.testBit k = m.testBit (3 * k) := by
  interval_cases k <;> simp [decode_unfold, testBit_extract, mod_two_testBit, shiftRight_mod_two_testBit]

theorem decode_snd_testBit (m k : Nat) (hk : k < 8) :
    (decodeMortonChunkID m).2.1.testBit k = m.testBit (3 * k + 1) := by
  interval_cases k <;> simp [decode_unfold, testBit_extract, mod_two_testBit, shiftRight_mod_two_testBit]

theorem decode_thd_testBit (m k : Nat) (hk : k < 8) :
    (decodeMortonChunkID m).2.2.testBit k = m.testBit (3 * k + 2) := by
  interval_cases k <;> simp [decode_unfold, testBit_extract, mod_two_testBit, shiftRight_mod_two_testBit]

theorem encode_testBit (x y z k : Nat) (hk : k < 24) :
    (encodeMortonChunkID x y z).testBit k =
      if k % 3 = 0 then x.testBit (k / 3)
      else if k % 3 = 1 then y.testBit (k / 3)
      else z.testBit (k / 3) := by
  interval_cases k <;> simp [encode_unfold, testBit_extract, mod_two_testBit, shiftRight_mod_two_testBit]

theorem two_pow_le {a k : Nat} (h : a ≤ k) : (2 : Nat) ^ a ≤ 2 ^ k :=
  Nat.pow_le_pow_right (by norm_num) h

theorem decode_encode (x y z : Nat) (hx : x < 256) (hy : y < 256) (hz : z < 256) :
    decodeMortonChunkID (encodeMortonChunkID x y z) = (x, y, z) := by
  refine Prod.ext ?_ (Prod.ext ?_ ?_) <;> dsimp only
  · refine Nat.eq_of_testBit_eq fun k => ?_
    by_cases hk : k < 8
    · rw [decode_fst_testBit _ _ hk, encode_testBit _ _ _ _ (by omega),
        if_pos (by omega : 3 * k % 3 = 0)]
      congr 1
      omega
    · rw [Nat.testBit_lt_two_pow (lt_of_lt_of_le hx
          (le_trans (by norm_num : (256:Nat) ≤ 2 ^ 8) (two_pow_le (by omega)))),
        Nat.testBit_lt_two_pow (lt_of_lt_of_le (decode_fst_lt _)
          (two_pow_le (by omega)))]
  · refine Nat.eq_of_testBit_eq fun k => ?_
    by_cases hk : k < 8
    · rw [decode_snd_testBit _ _ hk, encode_testBit _ _ _ _ (by omega),
        if_neg (by omega : ¬ (3 * k + 1) % 3 = 0),
        if_pos (by omega : (3 * k + 1) % 3 = 1)]
      congr 1
      omega
    · rw [Nat.testBit_lt_two_pow (lt_of_lt_of_le hy
          (le_trans (by norm_num : (256:Nat) ≤ 2 ^ 8) (two_pow_le (by omega)))),
        Nat.testBit_lt_two_pow (lt_of_lt_of_le (decode_snd_lt _)
          (two_pow_le (by omega)))]
  · refine Nat.eq_of_testBit_eq fun k => ?_
    by_cases hk : k < 8
    · rw [decode_thd_testBit _ _ hk, encode_testBit _ _ _ _ (by omega),
        if_neg (by omega : ¬ (3 * k + 2) % 3 = 0),
        if_neg (by omega : ¬ (3 * k + 2) % 3 = 1)]
      congr 1
      omega
    · rw [Nat.testBit_lt_two_pow (lt_of_lt_of_le hz
          (le_trans (by norm_num : (256:Nat) ≤ 2 ^ 8) (two_pow_le (by omega)))),
        Nat.testBit_lt_two_pow (lt_of_lt_of_le (decode_thd_lt _)
          (two_pow_le (by omega)))]

theorem encode_decode (c : Nat) (hc : c < 2 ^ 24) :
    encodeMortonChunkID (decodeMortonChunkID c).1 (decodeMortonChunkID c).2.1
      (decodeMortonChunkID c).2.2 = c := by
  refine Nat.eq_of_testBit_eq fun k => ?_
  by_cases hk : k < 24
  · rw [encode_testBit _ _ _ _ hk]
    by_cases h0 : k % 3 = 0
    · rw [if_pos h0, decode_fst_testBit _ _ (by omega)]
      congr 1
      omega
    · by_cases h1 : k % 3 = 1
      · rw [if_neg h0, if_pos h1, decode_snd_testBit _ _ (by omega)]
        congr 1
        omega
      · rw [if_neg h0, if_neg h1, decode_thd_testBit _ _ (by omega)]
        congr 1
        omega
  · rw [Nat.testBit_lt_two_pow (lt_of_lt_of_le (encode_lt _ _ _)
        (two_pow_le (by omega))),
      Nat.testBit_lt_two_pow (lt_of_lt_of_le hc (two_pow_le (by omega)))]


/-! ## The snapshot data model and the resolution loop -/

/-- A voxel position (world coordinates in the final state, local
coordinates inside the stream loop). -/
abbrev Pos := Nat × Nat × Nat

/-- The "id" sub-dictionary of a snapshot; `none` for `c` models both a
missing "c" key and a value the `boost::any_cast` rejects. -/
structure IdDict where
  c : Option Nat
  deriving DecidableEq, Repr

/-- The "s" sub-dictionary of a snapshot: the "id" dictionary and the
binary voxel stream "ds", each possibly missing or wrongly typed. -/
structure SnapshotS where
  id : Option IdDict
  ds : Option (List Nat)
  deriving DecidableEq, Repr

/-- One element of the top-level "snapshots" array. -/
structure Snapshot where
  s : Option SnapshotS
  deriving DecidableEq, Repr

/-- A snapshot with all required fields present. -/
def mkSnapshot (ck : Nat) (ds : List Nat) : Snapshot :=
  ⟨some ⟨some ⟨some ck⟩, some ds⟩⟩

/-- Per-chunk voxel map, an insertion-ordered association list standing in
for `std::map<std::tuple<int,int,int>, uint8_t>`; the claims below read it
only through lookup, membership and emptiness, which agree with the sorted
iteration order of `std::map`. -/
abbrev VoxelMap := List (Pos × Nat)

/-- `finalVoxelState` (vmax2bella.cpp:1596): chunk ID to voxel map. -/
abbrev FinalState := List (Nat × VoxelMap)

/-- `m[p] = c` on a voxel map: replace the binding of `p` if present,
append it otherwise. -/
def setPos (m : VoxelMap) (p : Pos) (c : Nat) : VoxelMap :=
  match m with
  | [] => [(p, c)]
  | (q, d) :: rest => if q = p then (p, c) :: rest else (q, d) :: setPos rest p c

/-- `finalVoxelState[ck][p] = c` (vmax2bella.cpp:1664). -/
def setChunkPos (st : FinalState) (ck : Nat) (p : Pos) (c : Nat) : FinalState :=
  match st with
  | [] => [(ck, [(p, c)])]
  | (k, m) :: rest =>
      if k = ck then (k, setPos m p c) :: rest else (k, m) :: setChunkPos rest ck p c

def lookupPos (m : VoxelMap) (p : Pos) : Option Nat :=
  match m with
  | [] => none
  | (q, d) :: rest => if q = p then some d else lookupPos rest p

def lookupChunk (st : FinalState) (ck : Nat) : Option VoxelMap :=
  match st with
  | [] => none
  | (k, m) :: rest => if k = ck then some m else lookupChunk rest ck

/-- The color recorded for world position `p` of chunk `ck`, if any. -/
def chunkVoxel (st : FinalState) (ck : Nat) (p : Pos) : Option Nat :=
  match lookupChunk st ck with
  | none => none
  | some m => lookupPos m p

/-- The x-first, then y, then z position-counter increment with
wrap-around (vmax2bella.cpp:1667-1682). -/
def incrementLocalPos : Pos → Pos
  | (x, y, z) =>
    let x1 := x + 1
    if x1 ≥ 32 then
      let y1 := y + 1
      if y1 ≥ 32 then
        let z1 := z + 1
        if z1 ≥ 32 then (0, 0, 0) else (0, 0, z1)
      else (0, y1, z)
    else (x1, y, z)

/-- The per-snapshot byte-pair loop (vmax2bella.cpp:1643-1684): bytes are
taken two at a time (the `i + 1 < size` guard skips a trailing odd byte); a
non-zero position byte jumps to its `decodeMorton` position, the pair
records its color byte at the current position (even color 0, which marks
emptiness), and a zero position byte advances the sequential counter
afterwards.  `% 256` is the `static_cast<uint8_t>` applied to the
`std::vector<char>` elements. -/
def processPairs (ck : Nat) (wo : Pos) : List Nat → Pos → FinalState → FinalState
  | pb :: cb :: rest, l, st =>
      let position := pb % 256
      let color := cb % 256
      let l1 := if position ≠ 0 then decodeMorton position else l
      let st1 := setChunkPos st ck (wo.1 + l1.1, wo.2.1 + l1.2.1, wo.2.2 + l1.2.2) color
      let l2 := if position = 0 then incrementLocalPos l1 else l1
      processPairs ck wo rest l2 st1
  | _, _, st => st

/-- The world positions written by `processPairs` on the same
arguments. -/
def writtenPositions (wo : Pos) : List Nat → Pos → List Pos
  | pb :: _cb :: rest, l =>
      let position := pb % 256
      let l1 := if position ≠ 0 then decodeMorton position else l
      let l2 := if position = 0 then incrementLocalPos l1 else l1
      (wo.1 + l1.1, wo.2.1 + l1.2.1, wo.2.2 + l1.2.2) :: writtenPositions wo rest l2
  | _, _ => []

/-- The chunk world origin: Morton-decoded chunk coordinates scaled by the
chunk edge length 32 (vmax2bella.cpp:1629-1634). -/
def chunkWorldOrigin (ck : Nat) : Pos :=
  ((decodeMortonChunkID ck).1 * 32, (decodeMortonChunkID ck).2.1 * 32,
   (decodeMortonChunkID ck).2.2 * 32)

/-- One iteration of the snapshot loop (vmax2bella.cpp:1602-1688): a
record missing (or with a wrongly typed) "s", "id", "c" or "ds" field is
skipped and leaves the state unchanged; otherwise its data stream is
decoded into the chunk named by its ID.  The same loop appears verbatim in
`printSimpleVoxelCoordinates` (2137-2219) and `justPrintVoxelCoordinates`
(1809-1871). -/
def processSnapshot (st : FinalState) (snap : Snapshot) : FinalState :=
  match snap.s with
  | none => st
  | some sd =>
    match sd.id with
    | none => st
    | some idd =>
      match idd.c with
      | none => st
      | some ck =>
        match sd.ds with
        | none => st
        | some ds => processPairs ck (chunkWorldOrigin ck) ds (0, 0, 0) st

/-- The full first pass over the "snapshots" array, in input order. -/
def resolveSnapshots (snaps : List Snapshot) : FinalState :=
  snaps.foldl processSnapshot []

/-- The visible-voxel collection loop (vmax2bella.cpp:1690-1698 and
2222-2231): every recorded position whose color is non-zero.  The C++ then
sorts this list; the claims below only use membership and emptiness, which
sorting preserves, so the sort is omitted. -/
def visibleVoxels (st : FinalState) : List (Pos × Nat) :=
  st.foldr (fun e acc => e.2.filter (fun pc => !(pc.2 == 0)) ++ acc) []

/-! ## Lemma layer -/

theorem twoStepInduction {motive : List Nat → Prop}
    (h0 : motive []) (h1 : ∀ a, motive [a])
    (h2 : ∀ a b rest, motive rest → motive (a :: b :: rest)) :
    ∀ l, motive l
  | [] => h0
  | [a] => h1 a
  | a :: b :: rest => h2 a b rest (twoStepInduction h0 h1 h2 rest)

theorem lookupPos_setPos_self (m : VoxelMap) (p : Pos) (c : Nat) :
    lookupPos (setPos m p c) p = some c := by
  induction m with
  | nil => simp [setPos, lookupPos]
  | cons e rest ih =>
      obtain ⟨q, d⟩ := e
      by_cases h : q = p <;> simp [setPos, lookupPos, h, ih]

theorem lookupPos_setPos_other (m : VoxelMap) (p q : Pos) (c : Nat) (h : q ≠ p) :
    lookupPos (setPos m q c) p = lookupPos m p := by
  induction m with
  | nil => simp [setPos, lookupPos, h]
  | cons e rest ih =>
      obtain ⟨r, d⟩ := e
      by_cases hr : r = q
      · subst hr
        simp [setPos, lookupPos, h]
      · by_cases hp : r = p <;> simp [setPos, lookupPos, hr, hp, ih, Ne.symm h]

theorem chunkVoxel_cons (k : Nat) (m : VoxelMap) (rest : FinalState) (ck : Nat) (p : Pos) :
    chunkVoxel ((k, m) :: rest) ck p =
      if k = ck then lookupPos m p else chunkVoxel rest ck p := by
  by_cases h : k = ck <;> simp [chunkVoxel, lookupChunk, h]

theorem setChunkPos_cons (k : Nat) (m : VoxelMap) (rest : FinalState) (ck : Nat)
    (p : Pos) (c : Nat) :
    setChunkPos ((k, m) :: rest) ck p c =
      if k = ck then (k, setPos m p c) :: rest else (k, m) :: setChunkPos rest ck p c := rfl

theorem chunkVoxel_set_self (st : FinalState) (ck : Nat) (p : Pos) (c : Nat) :
    chunkVoxel (setChunkPos st ck p c) ck p = some c := by
  induction st with
  | nil => simp [setChunkPos, chunkVoxel, lookupChunk, lookupPos]
  | cons e rest ih =>
      obtain ⟨k, m⟩ := e
      rw [setChunkPos_cons]
      by_cases h : k = ck
      · subst h
        simp [chunkVoxel_cons, lookupPos_setPos_self]
      · simp [h, chunkVoxel_cons, ih]

theorem chunkVoxel_set_other_pos (st : FinalState) (ck : Nat) (p q : Pos) (c : Nat)
    (h : q ≠ p) :
    chunkVoxel (setChunkPos st ck q c) ck p = chunkVoxel st ck p := by
  induction st with
  | nil => simp [setChunkPos, chunkVoxel, lookupChunk, lookupPos, h]
  | cons e rest ih =>
      obtain ⟨k, m⟩ := e
      rw [setChunkPos_cons]
      by_cases hk : k = ck
      · subst hk
        simp [chunkVoxel_cons, lookupPos_setPos_other _ _ _ _ h]
      · simp [hk, chunkVoxel_cons, ih]

theorem chunkVoxel_set_other_chunk (st : FinalState) (ck ck' : Nat) (p q : Pos) (c : Nat)
    (h : ck' ≠ ck) :
    chunkVoxel (setChunkPos st ck q c) ck' p = chunkVoxel st ck' p := by
  induction st with
  | nil => simp [setChunkPos, chunkVoxel, lookupChunk, Ne.symm h]
  | cons e rest ih =>
      obtain ⟨k, m⟩ := e
      rw [setChunkPos_cons]
      by_cases hk : k = ck
      · subst hk
        simp [chunkVoxel_cons, Ne.symm h]
      · by_cases hk' : k = ck' <;> simp [hk, hk', chunkVoxel_cons, ih, h]

theorem processPairs_other_chunk (ck : Nat) (wo : Pos) :
    ∀ bytes : List Nat, ∀ l st ck' p, ck' ≠ ck →
      chunkVoxel (processPairs ck wo bytes l st) ck' p = chunkVoxel st ck' p := by
  refine twoStepInduction ?_ ?_ ?_
  · intro l st ck' p h
    rfl
  · intro a l st ck' p h
    rfl
  · intro a b rest ih l st ck' p h
    simp only [processPairs]
    rw [ih _ _ _ _ h, chunkVoxel_set_other_chunk _ _ _ _ _ _ h]

theorem processPairs_unwritten (ck : Nat) (wo : Pos) :
    ∀ bytes : List Nat, ∀ l st p, p ∉ writtenPositions wo bytes l →
      chunkVoxel (processPairs ck wo bytes l st) ck p = chunkVoxel st ck p := by
  refine twoStepInduction ?_ ?_ ?_
  · intro l st p _
    rfl
  · intro a l st p _
    rfl
  · intro a b rest ih l st p hp
    simp only [writtenPositions, List.mem_cons, not_or] at hp
    simp only [processPairs]
    rw [ih _ _ _ hp.2, chunkVoxel_set_other_pos _ _ _ _ _ (Ne.symm hp.1)]

theorem processPairs_written_agree (ck : Nat) (wo : Pos) :
    ∀ bytes : List Nat, ∀ l st1 st2 p, p ∈ writtenPositions wo bytes l →
      chunkVoxel (processPairs ck wo bytes l st1) ck p =
        chunkVoxel (processPairs ck wo bytes l st2) ck p := by
  refine twoStepInduction ?_ ?_ ?_
  · intro l st1 st2 p hp
    simp [writtenPositions] at hp
  · intro a l st1 st2 p hp
    simp [writtenPositions] at hp
  · intro a b rest ih l st1 st2 p hp
    simp only [processPairs]
    by_cases hrest :
        p ∈ writtenPositions wo rest
          (if a % 256 = 0
            then incrementLocalPos (if a % 256 ≠ 0 then decodeMorton (a % 256) else l)
            else if a % 256 ≠ 0 then decodeMorton (a % 256) else l)
    · exact ih _ _ _ _ hrest
    · have hw : p = (wo.1 + (if a % 256 ≠ 0 then decodeMorton (a % 256) else l).1,
          wo.2.1 + (if a % 256 ≠ 0 then decodeMorton (a % 256) else l).2.1,
          wo.2.2 + (if a % 256 ≠ 0 then decodeMorton (a % 256) else l).2.2) := by
        simp only [writtenPositions, List.mem_cons] at hp
        exact hp.resolve_right hrest
      rw [processPairs_unwritten _ _ _ _ _ _ hrest,
        processPairs_unwritten _ _ _ _ _ _ hrest, hw,
        chunkVoxel_set_self, chunkVoxel_set_self]

theorem processSnapshot_mk (st : FinalState) (ck : Nat) (ds : List Nat) :
    processSnapshot st (mkSnapshot ck ds) =
      processPairs ck (chunkWorldOrigin ck) ds (0, 0, 0) st := rfl

theorem processSnapshot_last_write_wins (st : FinalState) (ck : Nat) (ds : List Nat) (p : Pos) :
    chunkVoxel (processSnapshot st (mkSnapshot ck ds)) ck p =
      if p ∈ writtenPositions (chunkWorldOrigin ck) ds (0, 0, 0)
      then chunkVoxel (processSnapshot [] (mkSnapshot ck ds)) ck p
      else chunkVoxel st ck p := by
  rw [processSnapshot_mk, processSnapshot_mk]
  by_cases h : p ∈ writtenPositions (chunkWorldOrigin ck) ds (0, 0, 0)
  · rw [if_pos h]
    exact processPairs_written_agree _ _ _ _ _ _ _ h
  · rw [if_neg h]
    exact processPairs_unwritten _ _ _ _ _ _ h

/-- The color bytes of a data stream, as stored (second byte of each pair,
after the `uint8_t` cast). -/
def streamColors : List Nat → List Nat
  | _pb :: cb :: rest => cb % 256 :: streamColors rest
  | _ => []

def snapStreamColors (snap : Snapshot) : List Nat :=
  match snap.s with
  | none => []
  | some sd =>
    match sd.id with
    | none => []
    | some idd =>
      match idd.c with
      | none => []
      | some _ =>
        match sd.ds with
        | none => []
        | some ds => streamColors ds

/-- Some chunk map of `st` contains the binding `pc`. -/
def stateHasEntry (st : FinalState) (pc : Pos × Nat) : Prop :=
  ∃ e, e ∈ st ∧ pc ∈ e.2

theorem mem_setPos {m : VoxelMap} {p : Pos} {c : Nat} {pc : Pos × Nat} :
    pc ∈ setPos m p c → pc = (p, c) ∨ pc ∈ m := by
  induction m with
  | nil =>
      intro h
      simpa [setPos] using h
  | cons e rest ih =>
      obtain ⟨q, d⟩ := e
      intro h
      by_cases hq : q = p
      · subst hq
        simp only [setPos, if_true, eq_self_iff_true, List.mem_cons] at h
        rcases h with h | h
        · exact Or.inl h
        · exact Or.inr (List.mem_cons_of_mem _ h)
      · simp only [setPos, if_neg hq, List.mem_cons] at h
        rcases h with h | h
        · exact Or.inr (by simp [h])
        · rcases ih h with h' | h'
          · exact Or.inl h'
          · exact Or.inr (List.mem_cons_of_mem _ h')

theorem stateHasEntry_setChunkPos {st : FinalState} {ck : Nat} {p : Pos} {c : Nat}
    {pc : Pos × Nat} (h : stateHasEntry (setChunkPos st ck p c) pc) :
    pc = (p, c) ∨ stateHasEntry st pc := by
  induction st with
  | nil =>
      obtain ⟨e, he, hpc⟩ := h
      simp only [setChunkPos, List.mem_singleton] at he
      subst he
      simp only [List.mem_singleton] at hpc
      exact Or.inl hpc
  | cons e rest ih =>
      obtain ⟨k, m⟩ := e
      rw [setChunkPos_cons] at h
      by_cases hk : k = ck
      · rw [if_pos hk] at h
        obtain ⟨e', he', hpc⟩ := h
        rcases List.mem_cons.mp he' with he' | he'
        · subst he'
          rcases mem_setPos hpc with h' | h'
          · exact Or.inl h'
          · exact Or.inr ⟨(k, m), List.mem_cons_self _ _, h'⟩
        · exact Or.inr ⟨e', List.mem_cons_of_mem _ he', hpc⟩
      · rw [if_neg hk] at h
        obtain ⟨e', he', hpc⟩ := h
        rcases List.mem_cons.mp he' with he' | he'
        · subst he'
          exact Or.inr ⟨(k, m), List.mem_cons_self _ _, hpc⟩
        · rcases ih ⟨e', he', hpc⟩ with h' | h'
          · exact Or.inl h'
          · obtain ⟨e'', he'', hpc''⟩ := h'
            exact Or.inr ⟨e'', List.mem_cons_of_mem _ he'', hpc''⟩

theorem processPairs_provenance (ck : Nat) (wo : Pos) :
    ∀ bytes : List Nat, ∀ l st pc, stateHasEntry (processPairs ck wo bytes l st) pc →
      stateHasEntry st pc ∨ pc.2 ∈ streamColors bytes := by
  refine twoStepInduction ?_ ?_ ?_
  · intro l st pc h
    exact Or.inl h
  · intro a l st pc h
    exact Or.inl h
  · intro a b rest ih l st pc h
    simp only [processPairs] at h
    rcases ih _ _ _ h with h' | h'
    · rcases stateHasEntry_setChunkPos h' with h'' | h''
      · right
        simp [streamColors, h'']
      · exact Or.inl h''
    · right
      simp [streamColors, h']

theorem visible_mem {st : FinalState} {pc : Pos × Nat}
    (h : pc ∈ visibleVoxels st) : stateHasEntry st pc ∧ pc.2 ≠ 0 := by
  induction st with
  | nil => simp [visibleVoxels] at h
  | cons e rest ih =>
      simp only [visibleVoxels, List.foldr_cons, List.mem_append] at h
      rcases h with h | h
      · rw [List.mem_filter] at h
        refine ⟨⟨e, List.mem_cons_self _ _, h.1⟩, ?_⟩
        simpa using h.2
      · obtain ⟨⟨e', he', hpc⟩, hc⟩ := ih h
        exact ⟨⟨e', List.mem_cons_of_mem _ he', hpc⟩, hc⟩

theorem resolve_provenance :
    ∀ snaps : List Snapshot, ∀ st pc,
      stateHasEntry (List.foldl processSnapshot st snaps) pc →
      stateHasEntry st pc ∨ ∃ snap, snap ∈ snaps ∧ pc.2 ∈ snapStreamColors snap := by
  intro snaps
  induction snaps with
  | nil =>
      intro st pc h
      exact Or.inl h
  | cons snap rest ih =>
      intro st pc h
      rw [List.foldl_cons] at h
      rcases ih _ _ h with h' | h'
      · obtain ⟨sd⟩ := snap
        rcases sd with _ | ⟨sd⟩
        · exact Or.inl h'
        · rcases sd with ⟨idd, ds⟩
          rcases idd with _ | ⟨idd⟩
          · exact Or.inl h'
          · rcases idd with ⟨c⟩
            rcases c with _ | ⟨ck⟩
            · exact Or.inl h'
            · rcases ds with _ | ⟨ds⟩
              · exact Or.inl h'
              · rcases processPairs_provenance _ _ _ _ _ _ h' with h'' | h''
                · exact Or.inl h''
                · right
                  refine ⟨_, List.mem_cons_self _ _, ?_⟩
                  simpa [snapStreamColors] using h''
      · obtain ⟨snap', hmem, hcol⟩ := h'
        exact Or.inr ⟨snap', List.mem_cons_of_mem _ hmem, hcol⟩

theorem stateHasEntry_nil (pc : Pos × Nat) : ¬ stateHasEntry [] pc := by
  rintro ⟨e, he, _⟩
  simp at he

/-- C5 amended core: every visible voxel carries a non-zero color that is
one of the raw stored color bytes of some processed snapshot, unadjusted. -/
theorem visible_color_raw (snaps : List Snapshot) (p : Pos) (c : Nat)
    (h : (p, c) ∈ visibleVoxels (resolveSnapshots snaps)) :
    c ≠ 0 ∧ ∃ snap, snap ∈ snaps ∧ c ∈ snapStreamColors snap := by
  obtain ⟨hentry, hc⟩ := visible_mem h
  refine ⟨hc, ?_⟩
  rcases resolve_provenance snaps [] (p, c) hentry with h' | h'
  · exact absurd h' (stateHasEntry_nil _)
  · exact h'

/-! ## Bounds invariants (C10) -/

/-- The local position counter stays inside the 32-cube. -/
def localInBounds (l : Pos) : Prop := l.1 < 32 ∧ l.2.1 < 32 ∧ l.2.2 < 32

instance (l : Pos) : Decidable (localInBounds l) := by
  unfold localInBounds
  infer_instance

theorem decodeMorton_bounds (code : Nat) :
    (decodeMorton code).1 ≤ 7 ∧ (decodeMorton code).2.1 ≤ 7 ∧ (decodeMorton code).2.2 ≤ 3 := by
  unfold decodeMorton
  dsimp only
  refine ⟨?_, ?_, ?_⟩ <;> split_ifs <;> decide

theorem incrementLocalPos_bounds {l : Pos} (h : localInBounds l) :
    localInBounds (incrementLocalPos l) := by
  obtain ⟨x, y, z⟩ := l
  have hx : x < 32 := h.1
  have hy : y < 32 := h.2.1
  have hz : z < 32 := h.2.2
  unfold incrementLocalPos
  dsimp only
  split_ifs with h1 h2 h3
  · exact show (0:Nat) < 32 ∧ (0:Nat) < 32 ∧ (0:Nat) < 32 by omega
  · exact show (0:Nat) < 32 ∧ (0:Nat) < 32 ∧ z + 1 < 32 by omega
  · exact show (0:Nat) < 32 ∧ y + 1 < 32 ∧ z < 32 by omega
  · exact show x + 1 < 32 ∧ y < 32 ∧ z < 32 by omega

theorem writtenPositions_bounds (wo : Pos) :
    ∀ bytes : List Nat, ∀ l, localInBounds l →
      ∀ p ∈ writtenPositions wo bytes l,
        ∃ dx dy dz, dx < 32 ∧ dy < 32 ∧ dz < 32 ∧
          p = (wo.1 + dx, wo.2.1 + dy, wo.2.2 + dz) := by
  refine twoStepInduction ?_ ?_ ?_
  · intro l _ p hp
    simp [writtenPositions] at hp
  · intro a l _ p hp
    simp [writtenPositions] at hp
  · intro a b rest ih l hl p hp
    by_cases hpos : a % 256 = 0
    · simp only [writtenPositions, hpos, ne_eq, not_true_eq_false, if_false, if_true,
        List.mem_cons, reduceIte] at hp
      rcases hp with hp | hp
      · exact ⟨l.1, l.2.1, l.2.2, hl.1, hl.2.1, hl.2.2, hp⟩
      · exact ih _ (incrementLocalPos_bounds hl) _ hp
    · simp only [writtenPositions, hpos, ne_eq, not_false_eq_true, if_true, if_false,
        List.mem_cons, reduceIte] at hp
      have hd := decodeMorton_bounds (a % 256)
      rcases hp with hp | hp
      · exact ⟨(decodeMorton (a % 256)).1, (decodeMorton (a % 256)).2.1,
          (decodeMorton (a % 256)).2.2, by omega, by omega, by omega, hp⟩
      · exact ih _ ⟨by omega, by omega, by omega⟩ _ hp

theorem chunkVoxel_processPairs_some (ck : Nat) (wo : Pos) :
    ∀ bytes : List Nat, ∀ l st ck' p,
      chunkVoxel (processPairs ck wo bytes l st) ck' p ≠ none →
      chunkVoxel st ck' p ≠ none ∨ (ck' = ck ∧ p ∈ writtenPositions wo bytes l) := by
  refine twoStepInduction ?_ ?_ ?_
  · intro l st ck' p h
    exact Or.inl h
  · intro a l st ck' p h
    exact Or.inl h
  · intro a b rest ih l st ck' p h
    simp only [processPairs] at h
    rcases ih _ _ _ _ h with h' | ⟨hck, hp⟩
    · by_cases hck : ck' = ck
      · subst hck
        by_cases hpw : p = (wo.1 + (if a % 256 ≠ 0 then decodeMorton (a % 256) else l).1,
            wo.2.1 + (if a % 256 ≠ 0 then decodeMorton (a % 256) else l).2.1,
            wo.2.2 + (if a % 256 ≠ 0 then decodeMorton (a % 256) else l).2.2)
        · right
          refine ⟨rfl, ?_⟩
          simp only [writtenPositions, List.mem_cons]
          exact Or.inl hpw
        · left
          rwa [chunkVoxel_set_other_pos _ _ _ _ _ (fun he => hpw he.symm)] at h'
      · left
        rwa [chunkVoxel_set_other_chunk _ _ _ _ _ _ hck] at h'
    · right
      refine ⟨hck, ?_⟩
      simp only [writtenPositions, List.mem_cons]
      exact Or.inr hp

/-- The C10 state invariant: every recorded voxel of chunk `ck` sits inside
the 32-cube at the world origin of `ck`. -/
def stateInChunkCubes (st : FinalState) : Prop :=
  ∀ ck p, chunkVoxel st ck p ≠ none →
    ∃ dx dy dz, dx < 32 ∧ dy < 32 ∧ dz < 32 ∧
      p = ((chunkWorldOrigin ck).1 + dx, (chunkWorldOrigin ck).2.1 + dy,
           (chunkWorldOrigin ck).2.2 + dz)

theorem processSnapshot_cubes {st : FinalState} (hst : stateInChunkCubes st)
    (snap : Snapshot) : stateInChunkCubes (processSnapshot st snap) := by
  obtain ⟨sd⟩ := snap
  rcases sd with _ | ⟨sd⟩
  · exact hst
  · rcases sd with ⟨idd, ds⟩
    rcases idd with _ | ⟨idd⟩
    · exact hst
    · rcases idd with ⟨c⟩
      rcases c with _ | ⟨ck0⟩
      · exact hst
      · rcases ds with _ | ⟨ds⟩
        · exact hst
        · intro ck p h
          rcases chunkVoxel_processPairs_some _ _ _ _ _ _ _ h with h' | ⟨hck, hp⟩
          · exact hst ck p h'
          · subst hck
            exact writtenPositions_bounds (chunkWorldOrigin ck) ds (0, 0, 0)
              (show (0:Nat) < 32 ∧ (0:Nat) < 32 ∧ (0:Nat) < 32 by omega) p hp

theorem resolve_cubes (snaps : List Snapshot) : stateInChunkCubes (resolveSnapshots snaps) := by
  have h : ∀ st : FinalState, stateInChunkCubes st →
      stateInChunkCubes (List.foldl processSnapshot st snaps) := by
    induction snaps with
    | nil => intro st hst; exact hst
    | cons snap rest ih =>
        intro st hst
        rw [List.foldl_cons]
        exact ih _ (processSnapshot_cubes hst snap)
  refine h [] ?_
  intro ck p hp
  simp [chunkVoxel, lookupChunk] at hp

/-! ## All-zero streams (C4) -/

theorem streamColors_allZero :
    ∀ bytes : List Nat, (∀ b ∈ bytes, b = 0) → ∀ c ∈ streamColors bytes, c = 0 := by
  refine twoStepInduction ?_ ?_ ?_
  · intro _ c hc
    simp [streamColors] at hc
  · intro a _ c hc
    simp [streamColors] at hc
  · intro a b rest ih hz c hc
    simp only [streamColors, List.mem_cons] at hc
    rcases hc with hc | hc
    · have hb : b = 0 := hz b (by simp)
      simp [hb] at hc
      exact hc
    · exact ih (fun x hx => hz x (by simp [hx])) c hc

theorem allZero_stream_no_visible (n ck : Nat) :
    visibleVoxels (resolveSnapshots [mkSnapshot ck (List.replicate n 0)]) = [] := by
  rw [List.eq_nil_iff_forall_not_mem]
  rintro ⟨p, c⟩ hmem
  obtain ⟨hc, snap, hsnap, hcol⟩ := visible_color_raw _ _ _ hmem
  simp only [List.mem_singleton] at hsnap
  subst hsnap
  have : c = 0 := by
    refine streamColors_allZero (List.replicate n 0)
      (fun b hb => List.eq_of_mem_replicate hb) c ?_
    simpa [snapStreamColors, mkSnapshot] using hcol
  exact hc this

/-! ## decodeVoxels2 (debug.cpp) -/

/-- Modelled from the spec: `decodeMorton3DOptimized` (with its helper
`compactBits`) is declared in debug.h:12-14 but its definition is not part
of the source tree, so it is taken from spec section 4.2, which mandates
the chunk-granularity Morton codec for stream indices ("index value IS the
Morton code"): the same x-from-bits 0,3,6,…, y-from-bits 1,4,7,…,
z-from-bits 2,5,8,… de-interleave as `decodeMortonChunkID`. -/
def decodeMorton3DOptimized (morton : Nat) : Nat × Nat × Nat :=
  decodeMortonChunkID morton

/-- `newVoxel` (common.h:4-7): decoded coordinates plus the color byte. -/
structure newVoxel where
  x : Nat
  y : Nat
  z : Nat
  color : Nat
  deriving DecidableEq, Repr

/-- The value of `dsData.size() - 1` computed in `size_t` arithmetic: wraps
to `2^64 - 1` when the vector is empty. -/
def sizeMinusOne (n : Nat) : Nat := (n + (2 ^ 64 - 1)) % 2 ^ 64

/-- The loop of `decodeVoxels2`, recursing over the unread suffix of the
buffer (the caller keeps `rem = dsData.drop i`); the loop guard compares
`i` against the full length as in the source.  Reading past the end of the
buffer (possible because the guard wraps on the empty vector) returns
`none`. -/
def decodeVoxels2Go (dsData : List Nat) (mortonOffset : Nat) :
    Nat → List Nat → Option (List newVoxel)
  | i, layer :: color :: rest =>
      if i < sizeMinusOne dsData.length then
        let _vxLayer := layer
        let d := decodeMorton3DOptimized (i / 2 + mortonOffset)
        match decodeVoxels2Go dsData mortonOffset (i + 2) rest with
        | none => none
        | some vs => some (if color ≠ 0 then ⟨d.1, d.2.1, d.2.2, color⟩ :: vs else vs)
      else some []
  | i, _ =>
      if i < sizeMinusOne dsData.length then none else some []

def decodeVoxels2 (dsData : List Nat) (mortonOffset : Nat) : Option (List newVoxel) :=
  decodeVoxels2Go dsData mortonOffset 0 dsData

-- sanity


theorem decodeVoxels2Go_nil (dsData : List Nat) (off i : Nat) :
    decodeVoxels2Go dsData off i [] =
      if i < sizeMinusOne dsData.length then none else some [] := rfl

theorem decodeVoxels2Go_one (dsData : List Nat) (off i a : Nat) :
    decodeVoxels2Go dsData off i [a] =
      if i < sizeMinusOne dsData.length then none else some [] := rfl

theorem decodeVoxels2Go_cons (dsData : List Nat) (off i a b : Nat) (rest : List Nat) :
    decodeVoxels2Go dsData off i (a :: b :: rest) =
      if i < sizeMinusOne dsData.length then
        match decodeVoxels2Go dsData off (i + 2) rest with
        | none => none
        | some vs =>
            some (if b ≠ 0 then
              ⟨(decodeMorton3DOptimized (i / 2 + off)).1,
               (decodeMorton3DOptimized (i / 2 + off)).2.1,
               (decodeMorton3DOptimized (i / 2 + off)).2.2, b⟩ :: vs else vs)
      else some [] := rfl

theorem sizeMinusOne_pos {n : Nat} (hn : n ≠ 0) (hn64 : n < 2 ^ 64) :
    sizeMinusOne n = n - 1 := by
  unfold sizeMinusOne
  have h1 : n + (2 ^ 64 - 1) = (n - 1) + 2 ^ 64 := by omega
  rw [h1, Nat.add_mod_right]
  omega

/-- Totality of `decodeVoxels2` on non-empty buffers: with a non-empty
vector the guard `i < size - 1` implies both reads are in bounds. -/
theorem decodeVoxels2_total (dsData : List Nat) (off : Nat) (hne : dsData ≠ [])
    (h64 : dsData.length < 2 ^ 64) :
    ∃ vs, decodeVoxels2 dsData off = some vs := by
  have hlen : dsData.length ≠ 0 := fun h => hne (List.eq_nil_of_length_eq_zero h)
  have key : ∀ rem : List Nat, ∀ i, i + rem.length = dsData.length →
      ∃ vs, decodeVoxels2Go dsData off i rem = some vs := by
    refine twoStepInduction ?_ ?_ ?_
    · intro i hi
      rw [decodeVoxels2Go_nil, sizeMinusOne_pos hlen h64]
      rw [if_neg (by simp at hi; omega)]
      exact ⟨[], rfl⟩
    · intro a i hi
      rw [decodeVoxels2Go_one, sizeMinusOne_pos hlen h64]
      rw [if_neg (by simp at hi; omega)]
      exact ⟨[], rfl⟩
    · intro a b rest ih i hi
      rw [decodeVoxels2Go_cons, sizeMinusOne_pos hlen h64]
      rw [if_pos (by simp at hi; omega)]
      obtain ⟨vs, hvs⟩ := ih (i + 2) (by simp at hi ⊢; omega)
      rw [hvs]
      exact ⟨_, rfl⟩
  exact key dsData 0 (by simp)

/-- An odd-length buffer (of length at least 3) decodes exactly like the
buffer with its trailing byte dropped. -/
theorem decodeVoxels2_dropLast (dsData : List Nat) (off : Nat)
    (hodd : dsData.length % 2 = 1) (h3 : 3 ≤ dsData.length)
    (h64 : dsData.length < 2 ^ 64) :
    decodeVoxels2 dsData off = decodeVoxels2 dsData.dropLast off := by
  have hlen : dsData.length ≠ 0 := by omega
  have hdl : dsData.dropLast.length = dsData.length - 1 := List.length_dropLast _
  have hdlne : dsData.dropLast.length ≠ 0 := by omega
  have key : ∀ rem : List Nat, ∀ i, i + rem.length = dsData.length →
      rem.length % 2 = 1 →
      decodeVoxels2Go dsData off i rem =
        decodeVoxels2Go dsData.dropLast off i rem.dropLast := by
    refine twoStepInduction ?_ ?_ ?_
    · intro i hi hpar
      simp at hpar
    · intro a i hi hpar
      rw [decodeVoxels2Go_one, sizeMinusOne_pos hlen h64]
      rw [if_neg (by simp at hi; omega)]
      show _ = decodeVoxels2Go dsData.dropLast off i []
      rw [decodeVoxels2Go_nil, sizeMinusOne_pos hdlne (by omega)]
      rw [if_neg (by simp at hi; omega)]
    · intro a b rest ih i hi hpar
      rcases rest with _ | ⟨r, rest'⟩
      · simp at hpar
      · have hrem : (a :: b :: r :: rest').dropLast = a :: b :: (r :: rest').dropLast := by
          simp
        rw [hrem]
        rw [decodeVoxels2Go_cons, sizeMinusOne_pos hlen h64]
        simp only [List.length_cons] at hi hpar
        by_cases hcase : (r :: rest').dropLast = []
        · -- then rest' = [], rem has length 3, i = n - 3
          have hrest' : rest' = [] := by
            rcases rest' with _ | ⟨u, us⟩
            · rfl
            · simp at hcase
          subst hrest'
          simp only [List.length_cons, List.length_nil] at hi hpar
          rw [hcase]
          rw [decodeVoxels2Go_cons, sizeMinusOne_pos hdlne (by omega), hdl]
          rw [if_pos (by omega), if_pos (by omega)]
          rw [ih (i + 2) (by simp; omega) (by simp)]
          rw [show (r :: ([] : List Nat)).dropLast = [] from rfl]
        · obtain ⟨u, us, hus⟩ := List.exists_cons_of_ne_nil hcase
          rw [hus]
          rw [decodeVoxels2Go_cons, sizeMinusOne_pos hdlne (by omega), hdl]
          rw [if_pos (by omega), if_pos (by omega)]
          rw [ih (i + 2) (by simp only [List.length_cons]; omega)
            (by simp only [List.length_cons] at hpar ⊢; omega), hus]
  have h0 : (0 : Nat) + dsData.length = dsData.length := by omega
  exact key dsData 0 h0 hodd

/-- All-zero even-length streams produce no voxels in `decodeVoxels2`
(non-empty, because of the empty-buffer underflow). -/
theorem decodeVoxels2_allZero (n off : Nat) (hpar : n % 2 = 0) (hne : n ≠ 0)
    (h64 : n < 2 ^ 64) :
    decodeVoxels2 (List.replicate n 0) off = some [] := by
  have hlen : (List.replicate n 0 : List Nat).length = n := List.length_replicate _ _
  have key : ∀ rem : List Nat, ∀ i, i + rem.length = n → rem.length % 2 = 0 →
      (∀ b ∈ rem, b = 0) →
      decodeVoxels2Go (List.replicate n 0) off i rem = some [] := by
    refine twoStepInduction ?_ ?_ ?_
    · intro i hi _ _
      rw [decodeVoxels2Go_nil, hlen, sizeMinusOne_pos hne h64]
      rw [if_neg (by simp at hi; omega)]
    · intro a i hi hp _
      simp at hp
    · intro a b rest ih i hi hp hz
      rw [decodeVoxels2Go_cons, hlen, sizeMinusOne_pos hne h64]
      simp only [List.length_cons] at hi hp
      rw [if_pos (by omega)]
      rw [ih (i + 2) (by omega) (by omega) (fun x hx => hz x (by simp [hx]))]
      have hb : b = 0 := hz b (by simp)
      simp [hb]
  refine Eq.trans ?_ (key (List.replicate n 0) 0 (by rw [hlen]; omega) (by rw [hlen]; omega)
    (fun b hb => List.eq_of_mem_replicate hb))
  rfl

/-! ## Defective snapshots (C8) -/

/-- A snapshot record missing one of the required fields: the "s"
dictionary, the "id" dictionary, the chunk identity "c", or the voxel
stream "ds" (a wrongly-typed field is modelled the same way, matching the
per-record `catch`). -/
def defectiveSnapshot (d : Snapshot) : Prop :=
  match d.s with
  | none => True
  | some sd =>
    match sd.id with
    | none => True
    | some idd =>
      match idd.c with
      | none => True
      | some _ => sd.ds = none

theorem processSnapshot_defective {d : Snapshot} (h : defectiveSnapshot d)
    (st : FinalState) : processSnapshot st d = st := by
  obtain ⟨sd⟩ := d
  rcases sd with _ | ⟨sd⟩
  · rfl
  · rcases sd with ⟨idd, ds⟩
    rcases idd with _ | ⟨idd⟩
    · rfl
    · rcases idd with ⟨c⟩
      rcases c with _ | ⟨ck⟩
      · rfl
      · have hds : ds = none := h
        subst hds
        rfl

theorem resolve_skip_defective (pre post : List Snapshot) (d : Snapshot)
    (h : defectiveSnapshot d) :
    resolveSnapshots (pre ++ d :: post) = resolveSnapshots (pre ++ post) := by
  unfold resolveSnapshots
  rw [List.foldl_append, List.foldl_append, List.foldl_cons,
    processSnapshot_defective h]

/-! ## Whole-document decoding (C9) -/

/-- The plist document tree, as seen through the tree accessors the source
uses: dictionaries, arrays, binary data, integers, strings, and a
catch-all for every other node type. -/
inductive PNode where
  | dict (entries : List (String × PNode))
  | arr (elems : List PNode)
  | data (bytes : List Nat)
  | int (value : Nat)
  | str (value : String)
  | other

def lookupKey : List (String × PNode) → String → Option PNode
  | [], _ => none
  | (k, v) :: rest, key => if k = key then some v else lookupKey rest key

/-- `parsePlistVoxelData` (vmax2bella.cpp:968-1571) reduced to its return
value: `false` exactly on the four early returns (lines 975, 984, 999,
1008: unreadable document, root not a dictionary, no "snapshots" key,
"snapshots" not an array); the per-snapshot loop catches every exception
per record and the function returns `true` at line 1570 regardless of how
many voxels were produced. -/
def parsePlistVoxelData (root : PNode) : Bool :=
  match root with
  | .dict entries =>
    match lookupKey entries "snapshots" with
    | some (.arr _) => true
    | some _ => false
    | none => false
  | _ => false

theorem parsePlistVoxelData_spec (root : PNode) :
    parsePlistVoxelData root = true ↔
      ∃ entries snaps, root = .dict entries ∧
        lookupKey entries "snapshots" = some (.arr snaps) := by
  cases root with
  | dict entries =>
      cases hlk : lookupKey entries "snapshots" with
      | none => simp [parsePlistVoxelData, hlk]
      | some v => cases v <;> simp [parsePlistVoxelData, hlk]
  | arr elems => simp [parsePlistVoxelData]
  | data bytes => simp [parsePlistVoxelData]
  | int value => simp [parsePlistVoxelData]
  | str value => simp [parsePlistVoxelData]
  | other => simp [parsePlistVoxelData]

/-! ## Claim theorems -/

/-- C1, counterexample: two snapshots for chunk 0 with different voxel
content — A with stream [0,5,0,7] (positions (0,0,0) and (1,0,0)) and B
with stream [0,9] (position (0,0,0) only).  Resolving [A, B] keeps the
voxel at (1,0,0) written only by A while taking the value of B at (0,0,0),
so the result differs from the content of the later snapshot B alone: it
is a merge of both. -/
theorem C1_counterexample :
    chunkVoxel (resolveSnapshots [mkSnapshot 0 [0, 5, 0, 7], mkSnapshot 0 [0, 9]]) 0 (0, 0, 0)
        = some 9 ∧
    chunkVoxel (resolveSnapshots [mkSnapshot 0 [0, 5, 0, 7], mkSnapshot 0 [0, 9]]) 0 (1, 0, 0)
        = some 7 ∧
    chunkVoxel (resolveSnapshots [mkSnapshot 0 [0, 9]]) 0 (1, 0, 0) = none ∧
    chunkVoxel (resolveSnapshots [mkSnapshot 0 [0, 5, 0, 7]]) 0 ≠
      chunkVoxel (resolveSnapshots [mkSnapshot 0 [0, 9]]) 0 ∧
    chunkVoxel (resolveSnapshots [mkSnapshot 0 [0, 5, 0, 7], mkSnapshot 0 [0, 9]]) 0 ≠
      chunkVoxel (resolveSnapshots [mkSnapshot 0 [0, 9]]) 0 := by
  refine ⟨by decide, by decide, by decide, fun h => ?_, fun h => ?_⟩
  · exact absurd (congrFun h (1, 0, 0)) (by decide)
  · exact absurd (congrFun h (1, 0, 0)) (by decide)

/-- C1, amended: resolution is last-write-wins per voxel position, not per
chunk: at every position the later snapshot writes, the resolved value is
what that snapshot alone would record there; at every position it does not
write, the state produced by the earlier snapshots is kept — so the
resolved chunk can combine voxels of both snapshots when the later one
does not rewrite every position of the earlier one. -/
theorem C1_per_position_last_write_wins (pre : List Snapshot) (ck : Nat)
    (ds : List Nat) (p : Pos) :
    chunkVoxel (resolveSnapshots (pre ++ [mkSnapshot ck ds])) ck p =
      if p ∈ writtenPositions (chunkWorldOrigin ck) ds (0, 0, 0)
      then chunkVoxel (resolveSnapshots [mkSnapshot ck ds]) ck p
      else chunkVoxel (resolveSnapshots pre) ck p := by
  unfold resolveSnapshots
  rw [List.foldl_append, List.foldl_cons, List.foldl_nil,
    show List.foldl processSnapshot [] [mkSnapshot ck ds]
      = processSnapshot [] (mkSnapshot ck ds) from rfl]
  exact processSnapshot_last_write_wins _ ck ds p

/-- C2: for all x, y, z in [0,255], decoding the 24-bit Morton code obtained
by interleaving the bits of x, y, z in the fixed order (x-bit, y-bit,
z-bit) per bit-plane with `decodeMortonChunkID` returns exactly (x, y, z),
and re-encoding the decoded coordinates of any code in [0, 2^24) gives
back that code. -/
theorem C2_morton_roundtrip :
    (∀ x y z : Nat, x < 256 → y < 256 → z < 256 →
      decodeMortonChunkID (encodeMortonChunkID x y z) = (x, y, z)) ∧
    (∀ c : Nat, c < 2 ^ 24 →
      encodeMortonChunkID (decodeMortonChunkID c).1 (decodeMortonChunkID c).2.1
        (decodeMortonChunkID c).2.2 = c) :=
  ⟨decode_encode, encode_decode⟩

/-- C2, witness at (3,1,2) and code 73. -/
theorem C2_witness :
    decodeMortonChunkID (encodeMortonChunkID 3 1 2) = (3, 1, 2) ∧
    encodeMortonChunkID (decodeMortonChunkID 73).1 (decodeMortonChunkID 73).2.1
      (decodeMortonChunkID 73).2.2 = 73 :=
  ⟨C2_morton_roundtrip.1 3 1 2 (by decide) (by decide) (by decide),
   C2_morton_roundtrip.2 73 (by decide)⟩

/-- C3: the claim says voxel-stream decoding is total over every byte
buffer with the empty buffer decoding to the empty sequence; on the empty
buffer the loop guard `i < dsData.size() - 1` of `decodeVoxels2`
(debug.cpp:12) wraps in `size_t` to `2^64 - 1`, so the first iteration
reads `dsData[0]` and `dsData[1]` out of bounds — the model returns
`none`. -/
theorem C3_empty_buffer_out_of_bounds : decodeVoxels2 [] 0 = none := by decide

/-- C4: a stream consisting solely of (0x00, 0x00) pairs yields zero
emitted voxels — the resolution pipeline records only color-0 entries, so
the visible-voxel output is empty for every stream length, and
`decodeVoxels2` emits no voxel on any non-empty even such stream (the
empty stream is excluded by the C3 underflow bug). -/
theorem C4_all_zero_pairs_emit_nothing (n ck off : Nat) :
    visibleVoxels (resolveSnapshots [mkSnapshot ck (List.replicate n 0)]) = [] ∧
    (n % 2 = 0 → n ≠ 0 → n < 2 ^ 64 →
      decodeVoxels2 (List.replicate n 0) off = some []) :=
  ⟨allZero_stream_no_visible n ck,
   fun h1 h2 h3 => decodeVoxels2_allZero n off h1 h2 h3⟩

/-- C4, witness at n = 4. -/
theorem C4_witness :
    visibleVoxels (resolveSnapshots [mkSnapshot 0 (List.replicate 4 0)]) = [] ∧
    decodeVoxels2 (List.replicate 4 0) 0 = some [] :=
  ⟨(C4_all_zero_pairs_emit_nothing 4 0 0).1,
   (C4_all_zero_pairs_emit_nothing 4 0 0).2 (by decide) (by decide) (by decide)⟩

/-- C5, counterexample: a stored color byte of 1 is delivered as color 1,
not as the 0-based palette index 0 = 1 - 1 the claim requires: no -1
adjustment exists anywhere in the source pipeline. -/
theorem C5_counterexample :
    visibleVoxels (resolveSnapshots [mkSnapshot 0 [0, 1]]) = [((0, 0, 0), 1)] ∧
    (1 : Nat) ≠ 1 - 1 :=
  ⟨by decide, by decide⟩

/-- C5, amended: every voxel delivered to the downstream consumer carries
its raw stored color byte unchanged (the 1-based value; the source never
subtracts 1), and a stored color byte of 0 never produces a voxel in the
output. -/
theorem C5_raw_color_delivered (snaps : List Snapshot) (p : Pos) (c : Nat)
    (h : (p, c) ∈ visibleVoxels (resolveSnapshots snaps)) :
    c ≠ 0 ∧ ∃ snap, snap ∈ snaps ∧ c ∈ snapStreamColors snap :=
  visible_color_raw snaps p c h

/-- C5, witness: the single stored byte 5 is delivered as 5. -/
theorem C5_witness :
    ((0, 0, 0), 5) ∈ visibleVoxels (resolveSnapshots [mkSnapshot 0 [0, 5]]) ∧
    (5 ≠ 0 ∧ ∃ snap, snap ∈ [mkSnapshot 0 [0, 5]] ∧ 5 ∈ snapStreamColors snap) :=
  ⟨by decide, C5_raw_color_delivered [mkSnapshot 0 [0, 5]] (0, 0, 0) 5 (by decide)⟩

set_option maxRecDepth 8192 in
/-- C6, counterexample: no code in [0,255] distinguishes `decodeMorton`
from `decodeMortonChunkID` — the claimed witness of non-truncation does
not exist. -/
theorem C6_counterexample :
    ¬ ∃ c, c < 256 ∧ decodeMorton c ≠ decodeMortonChunkID c := by decide

set_option maxRecDepth 8192 in
/-- C6, amended: the 8-bit intra-chunk decoder coincides with the 24-bit
chunk decoder on every code in [0,255] (both read x from bits 0,3,6, y
from bits 1,4,7 and z from bits 2,5): it IS the restriction of the 24-bit
codec to 8-bit codes, so a separate implementation is a convenience, not a
semantic necessity. -/
theorem C6_same_on_bytes : ∀ c < 256, decodeMorton c = decodeMortonChunkID c := by decide

/-- C6, witness at code 73. -/
theorem C6_witness : 73 < 256 ∧ decodeMorton 73 = decodeMortonChunkID 73 :=
  ⟨by decide, C6_same_on_bytes 73 (by decide)⟩

/-- C7, counterexample: chunk ID 73 decodes to neither of the vectors
stated in the spec — `decodeMortonChunkID 73` is not (1,2,3) and
`decodeMorton 73` is not (5,1,0). -/
theorem C7_counterexample :
    ¬ (decodeMortonChunkID 73 = (1, 2, 3) ∨ decodeMorton 73 = (5, 1, 0)) := by decide

/-- C7, amended: chunk ID 73 (bits 0, 3 and 6 set) decodes to (7,0,0)
under both the 24-bit chunk decoder and the 8-bit intra-chunk variant; the
worked example in the source comment (vmax2bella.cpp:181-185) miscomputes
x as 101b = 5 where the three extracted bits are 1,1,1 = 7. -/
theorem C7_decodes_to_700 :
    decodeMortonChunkID 73 = (7, 0, 0) ∧ decodeMorton 73 = (7, 0, 0) := by decide

/-- C8: a snapshot record missing a required field — the "s" dictionary,
the "id" dictionary, the chunk identity "c", or the voxel stream "ds" —
contributes nothing to the final voxel state and does not abort
processing: the remaining records resolve exactly as if it were absent. -/
theorem C8_defective_record_skipped (pre post : List Snapshot) (d : Snapshot)
    (h : defectiveSnapshot d) :
    resolveSnapshots (pre ++ d :: post) = resolveSnapshots (pre ++ post) :=
  resolve_skip_defective pre post d h

/-- C8, witness: a record with chunk ID but no "ds" stream between two
good records. -/
theorem C8_witness :
    defectiveSnapshot ⟨some ⟨some ⟨some 0⟩, none⟩⟩ ∧
    resolveSnapshots ([mkSnapshot 0 [0, 5]] ++ ⟨some ⟨some ⟨some 0⟩, none⟩⟩ :: [mkSnapshot 1 [0, 7]]) =
      resolveSnapshots ([mkSnapshot 0 [0, 5]] ++ [mkSnapshot 1 [0, 7]]) :=
  ⟨rfl, C8_defective_record_skipped [mkSnapshot 0 [0, 5]] [mkSnapshot 1 [0, 7]]
    ⟨some ⟨some ⟨some 0⟩, none⟩⟩ rfl⟩

/-- C9: `parsePlistVoxelData` reports failure exactly when the document is
not a dictionary, has no "snapshots" key, or its "snapshots" value is not
an array; any other document succeeds — in particular one whose snapshot
array is empty and therefore yields zero voxels. -/
theorem C9_failure_iff :
    (∀ root : PNode, parsePlistVoxelData root = false ↔
      ¬ ∃ entries snaps, root = PNode.dict entries ∧
        lookupKey entries "snapshots" = some (PNode.arr snaps)) ∧
    parsePlistVoxelData (PNode.dict [("snapshots", PNode.arr [])]) = true := by
  constructor
  · intro root
    rw [← parsePlistVoxelData_spec root]
    cases parsePlistVoxelData root <;> simp
  · decide

/-- C10: during the hybrid stream decode the local position always lies in
[0,31] on each axis — the sequential counter wraps at each axis bound and
a Morton jump lands in [0,7] x [0,7] x [0,3] — so every recorded voxel's
world coordinate is the chunk world origin plus an offset in [0,31] per
axis: it lies inside the chunk 32-cube. -/
theorem C10_chunk_cube_invariant :
    (∀ code : Nat, (decodeMorton code).1 ≤ 7 ∧ (decodeMorton code).2.1 ≤ 7 ∧
      (decodeMorton code).2.2 ≤ 3) ∧
    (∀ l : Pos, localInBounds l → localInBounds (incrementLocalPos l)) ∧
    (∀ snaps : List Snapshot, ∀ ck : Nat, ∀ p : Pos,
      chunkVoxel (resolveSnapshots snaps) ck p ≠ none →
      ∃ dx dy dz, dx < 32 ∧ dy < 32 ∧ dz < 32 ∧
        p = ((chunkWorldOrigin ck).1 + dx, (chunkWorldOrigin ck).2.1 + dy,
             (chunkWorldOrigin ck).2.2 + dz)) :=
  ⟨decodeMorton_bounds, fun _ h => incrementLocalPos_bounds h,
   fun snaps => resolve_cubes snaps⟩

/-- C10, witness: wrap of the counter at (31,0,5) and the voxel of chunk
73 recorded at its world origin (224,0,0). -/
theorem C10_witness :
    (localInBounds (31, 0, 5) ∧ localInBounds (incrementLocalPos (31, 0, 5))) ∧
    (chunkVoxel (resolveSnapshots [mkSnapshot 73 [0, 9]]) 73 (224, 0, 0) ≠ none ∧
     ∃ dx dy dz, dx < 32 ∧ dy < 32 ∧ dz < 32 ∧
       ((224, 0, 0) : Pos) = ((chunkWorldOrigin 73).1 + dx, (chunkWorldOrigin 73).2.1 + dy,
          (chunkWorldOrigin 73).2.2 + dz)) :=
  ⟨⟨by decide, C10_chunk_cube_invariant.2.1 (31, 0, 5) (by decide)⟩,
   ⟨by decide, C10_chunk_cube_invariant.2.2 [mkSnapshot 73 [0, 9]] 73 (224, 0, 0) (by decide)⟩⟩

end Vmax2Bella
